import Mathlib

/-!
Verification of the lorax batch client (src/server/lorax_server/batch/__init__.py).

The development shallowly embeds the batch-admission scheduler (next_batch),
the warmup request synthesis (warmup), and the continuous-batching driver
loop (run) as Lean functions, and proves/refutes the specification claims
about them.

Modelling conventions:
- Python ints are modelled as ℤ (or ℕ where the source value is a length or
  counter that is provably nonnegative, e.g. input_length = len(input_ids)).
- Python true division (the / operator, which produces a float in Python 3)
  is modelled as exact division in ℚ.  For the block sizes used by the
  program (BLOCK_SIZE = 16, a power of two) and token counts far below 2^53,
  the float computation in the source is exact, so the ℚ semantics agrees
  with the runtime values.  Division by zero (a Python ZeroDivisionError)
  is the ℚ convention x / 0 = 0; all claims use positive block sizes.
- The protobuf message types (generate_pb2) are generated code not present
  in the repository snapshot; their record shapes are modelled from the
  spec's wire-entity table (§6): Batch{id, size, requests, max_tokens},
  Request{id, inputs, truncate, sampling params, stopping params,
  adapter_index, prefill_logprobs, apply_chat_template},
  Generation{request_id, generated_text}, CachedBatch an opaque handle.
- The global mutable batch-id counter _ID is threaded explicitly as a
  next_id argument/result.
-/

namespace LoraxBatch

/-- Modelled from the spec (§6): sampling configuration of a Request
(generate_pb2.NextTokenChooserParameters is generated code absent from the
snapshot).  Field set follows the constructor calls in the source. -/
structure NextTokenChooserParameters where
  temperature : ℚ
  top_k : ℤ
  top_p : ℚ
  typical_p : ℚ
  do_sample : Bool
  seed : ℤ
  repetition_penalty : ℚ
  watermark : Bool
  adapter_id : String
  schema : Option String
  return_k_alternatives : ℤ
deriving DecidableEq, Repr

/-- Modelled from the spec (§6): stopping configuration of a Request
(generate_pb2.StoppingCriteriaParameters is generated code absent from the
snapshot). -/
structure StoppingCriteriaParameters where
  max_new_tokens : ℤ
  stop_sequences : List String
  ignore_eos_token : Bool
deriving DecidableEq, Repr

/-- Modelled from the spec (§6): one generation request
(generate_pb2.Request is generated code absent from the snapshot). -/
structure Request where
  id : ℤ
  inputs : String
  truncate : ℤ
  parameters : NextTokenChooserParameters
  stopping_parameters : StoppingCriteriaParameters
  adapter_index : ℤ
  prefill_logprobs : Bool
  apply_chat_template : Bool
deriving DecidableEq, Repr

/-- Entry (source lines 17-21): a Request plus its measured input token
length.  input_length is len(input_ids), a list length, hence ℕ. -/
structure Entry where
  request : Request
  input_length : ℕ
deriving DecidableEq, Repr

/-- Modelled from the spec (§6): Batch{id, size, requests, max_tokens}
(generate_pb2.Batch is generated code absent from the snapshot).
max_tokens is ℚ because the source stores prefill_tokens + decode_tokens,
which are Python floats after the true-division cost updates. -/
structure Batch where
  id : ℕ
  size : ℕ
  requests : List Request
  max_tokens : ℚ
deriving DecidableEq, Repr

/-- BLOCK_SIZE constant (source line 13). -/
def BLOCK_SIZE : ℕ := 16

/-- Prefill cost added for one entry (source line 258):
((entry.input_length + block_size - 1) / block_size) * block_size,
with / the Python true division, modelled in ℚ. -/
def prefill_cost (block_size : ℕ) (e : Entry) : ℚ :=
  ((e.input_length + block_size - 1 : ℚ) / block_size) * block_size

/-- Effective max-new-tokens for one entry (source lines 261-267):
request's max_new_tokens when window_size is None, otherwise
min(window_size - input_length, max_new_tokens). -/
def effective_max_new (window_size : Option ℤ) (e : Entry) : ℤ :=
  match window_size with
  | none => e.request.stopping_parameters.max_new_tokens
  | some w => min (w - (e.input_length : ℤ)) e.request.stopping_parameters.max_new_tokens

/-- Decode cost added for one entry (source line 268):
((max_new_tokens + block_size - 1) / block_size) * block_size, with
max_new_tokens the effective value of lines 261-267 and / the Python true
division, modelled in ℚ. -/
def decode_cost (block_size : ℕ) (window_size : Option ℤ) (e : Entry) : ℚ :=
  ((effective_max_new window_size e + block_size - 1 : ℚ) / block_size) * block_size

/-- Combined per-entry cost: prefill_cost + decode_cost. -/
def entry_cost (block_size : ℕ) (window_size : Option ℤ) (e : Entry) : ℚ :=
  prefill_cost block_size e + decode_cost block_size window_size e

/-- The while loop of next_batch (source lines 251-276).  State:
remaining entries, accumulated batch_requests, prefill_tokens,
decode_tokens.  Returns (batch_requests, prefill_tokens, decode_tokens,
remaining entries); the source mutates the entries list in place
(pop(0) / insert(0, entry)), modelled by returning the final list. -/
def nextBatchGo (max_batch_prefill_tokens token_budget : ℤ) (block_size : ℕ)
    (window_size : Option ℤ) :
    List Entry → List Request → ℚ → ℚ → List Request × ℚ × ℚ × List Entry
  | [], batch_requests, prefill_tokens, decode_tokens =>
    (batch_requests, prefill_tokens, decode_tokens, [])
  | e :: rest, batch_requests, prefill_tokens, decode_tokens =>
    if prefill_tokens + decode_tokens ≤ (token_budget : ℚ) then
      let prefill_tokens' := prefill_tokens + prefill_cost block_size e
      let decode_tokens' := decode_tokens + decode_cost block_size window_size e
      if (max_batch_prefill_tokens : ℚ) < prefill_tokens' ∨
          (token_budget : ℚ) < prefill_tokens' + decode_tokens' then
        -- Entry is over budget: add it back to the front and stop (lines 270-274)
        (batch_requests, prefill_tokens', decode_tokens', e :: rest)
      else
        nextBatchGo max_batch_prefill_tokens token_budget block_size window_size
          rest (batch_requests ++ [e.request]) prefill_tokens' decode_tokens'
    else
      (batch_requests, prefill_tokens, decode_tokens, e :: rest)

/-- next_batch (source lines 244-290).  The global _ID counter is threaded
as the explicit next_id argument; the result carries the possibly
incremented counter.  Returns (batch or none, remaining queue, next id). -/
def next_batch (entries : List Entry) (max_batch_prefill_tokens token_budget : ℤ)
    (block_size : ℕ) (window_size : Option ℤ) (next_id : ℕ) :
    Option Batch × List Entry × ℕ :=
  let r := nextBatchGo max_batch_prefill_tokens token_budget block_size window_size
    entries [] 0 0
  if r.1.isEmpty then
    (none, r.2.2.2, next_id)
  else
    (some { id := next_id, size := r.1.length, requests := r.1,
            max_tokens := r.2.1 + r.2.2.1 }, r.2.2.2, next_id + 1)

/-- Follows the spec's words (§4.1 steps b and d): the claimed cost of a
value x is ceil(x / block_size) * block_size, i.e. x rounded up to the next
multiple of block_size.  Used to compare the code's true-division cost
against the spec's ceiling-rounded cost. -/
def spec_rounded_cost (x : ℤ) (block_size : ℕ) : ℤ :=
  ⌈(x : ℚ) / (block_size : ℚ)⌉ * block_size

/-- Sum of prefill costs over a list of entries. -/
def prefill_sum (block_size : ℕ) (l : List Entry) : ℚ :=
  (l.map (fun e => prefill_cost block_size e)).sum

/-- Sum of decode costs over a list of entries. -/
def decode_sum (block_size : ℕ) (window_size : Option ℤ) (l : List Entry) : ℚ :=
  (l.map (fun e => decode_cost block_size window_size e)).sum

@[simp] lemma prefill_sum_nil (B : ℕ) : prefill_sum B [] = 0 := rfl

@[simp] lemma prefill_sum_cons (B : ℕ) (e : Entry) (l : List Entry) :
    prefill_sum B (e :: l) = prefill_cost B e + prefill_sum B l := by
  simp [prefill_sum]

@[simp] lemma decode_sum_nil (B : ℕ) (w : Option ℤ) : decode_sum B w [] = 0 := rfl

@[simp] lemma decode_sum_cons (B : ℕ) (w : Option ℤ) (e : Entry) (l : List Entry) :
    decode_sum B w (e :: l) = decode_cost B w e + decode_sum B w l := by
  simp [decode_sum]

/-- Structural characterization of the next_batch while loop: there is a
number k of committed entries and a number charged of entries whose costs
were accumulated (charged = k + 1 exactly when the loop stopped by
rejecting entry k and pushing it back); the committed requests extend the
accumulator in order, the remaining queue is the original suffix, every
committed step respected both budgets, and the loop records why it
stopped. -/
lemma nextBatchGo_spec (mbpt tb : ℤ) (B : ℕ) (w : Option ℤ) :
    ∀ (entries : List Entry) (reqs : List Request) (p d : ℚ),
    ∃ k charged,
      k ≤ charged ∧ charged ≤ k + 1 ∧ charged ≤ entries.length ∧
      nextBatchGo mbpt tb B w entries reqs p d =
        (reqs ++ (entries.take k).map (fun e => e.request),
         p + prefill_sum B (entries.take charged),
         d + decode_sum B w (entries.take charged),
         entries.drop k) ∧
      (∀ j, 1 ≤ j → j ≤ k →
        p + prefill_sum B (entries.take j) ≤ (mbpt : ℚ) ∧
        p + prefill_sum B (entries.take j) + (d + decode_sum B w (entries.take j)) ≤ (tb : ℚ)) ∧
      (charged = k + 1 →
        ((mbpt : ℚ) < p + prefill_sum B (entries.take charged) ∨
         (tb : ℚ) < p + prefill_sum B (entries.take charged) +
           (d + decode_sum B w (entries.take charged)))) ∧
      (charged = k → (k = entries.length ∨ (k = 0 ∧ (tb : ℚ) < p + d))) := by
  intro entries
  induction entries with
  | nil =>
    intro reqs p d
    refine ⟨0, 0, le_refl 0, by omega, by simp, by simp [nextBatchGo], ?_, ?_, ?_⟩
    · exact fun j hj1 hj2 => absurd hj2 (by omega)
    · exact fun h => absurd h (by omega)
    · exact fun _ => Or.inl rfl
  | cons e rest ih =>
    intro reqs p d
    by_cases hg : p + d ≤ (tb : ℚ)
    · by_cases hrej : (mbpt : ℚ) < p + prefill_cost B e ∨
          (tb : ℚ) < p + prefill_cost B e + (d + decode_cost B w e)
      · -- the entry is rejected and pushed back to the front
        refine ⟨0, 1, by omega, by omega, by simp, ?_, ?_, ?_, ?_⟩
        · simp only [nextBatchGo, if_pos hg, if_pos hrej]
          simp
        · exact fun j hj1 hj2 => absurd hj2 (by omega)
        · intro _
          simpa using hrej
        · exact fun h => absurd h (by omega)
      · -- the entry is committed
        obtain ⟨k, ch, hkc, hck, hchlen, heq, hcom, hrc, hstop⟩ :=
          ih (reqs ++ [e.request]) (p + prefill_cost B e) (d + decode_cost B w e)
        push_neg at hrej
        refine ⟨k + 1, ch + 1, by omega, by omega, by simpa using hchlen, ?_, ?_, ?_, ?_⟩
        · simp only [nextBatchGo, if_pos hg, if_neg (by push_neg; exact hrej :
            ¬((mbpt : ℚ) < p + prefill_cost B e ∨
              (tb : ℚ) < p + prefill_cost B e + (d + decode_cost B w e)))]
          rw [heq]
          simp only [List.take_succ_cons, List.map_cons, List.drop_succ_cons,
            prefill_sum_cons, decode_sum_cons, List.append_assoc, List.singleton_append,
            Prod.mk.injEq]
          exact ⟨trivial, by ring, by ring, trivial⟩
        · intro j hj1 hj2
          match j, hj1, hj2 with
          | 1, _, _ =>
            simp only [List.take_succ_cons, List.take_zero, prefill_sum_cons, decode_sum_cons,
              prefill_sum_nil, decode_sum_nil, add_zero]
            exact ⟨by linarith [hrej.1], by linarith [hrej.2]⟩
          | (j' + 2), _, hj2 =>
            have h := hcom (j' + 1) (by omega) (by omega)
            simp only [List.take_succ_cons, prefill_sum_cons, decode_sum_cons]
            constructor
            · linarith [h.1]
            · linarith [h.2]
        · intro h
          have hch : ch = k + 1 := by omega
          rcases hrc hch with h1 | h1
          · left
            simp only [List.take_succ_cons, prefill_sum_cons]
            linarith
          · right
            simp only [List.take_succ_cons, prefill_sum_cons, decode_sum_cons]
            linarith
        · intro h
          have hch : ch = k := by omega
          rcases hstop hch with h1 | ⟨h1, h2⟩
          · left
            simp [h1]
          · exact absurd h2 (by linarith [hrej.2])
    · refine ⟨0, 0, le_refl 0, by omega, by simp, ?_, ?_, ?_, ?_⟩
      · simp only [nextBatchGo, if_neg hg]
        simp
      · exact fun j hj1 hj2 => absurd hj2 (by omega)
      · exact fun h => absurd h (by omega)
      · exact fun _ => Or.inr ⟨rfl, by linarith⟩

/-- Case characterization of one next_batch call: either it returns none
with the queue unchanged and the id not incremented (recording why nothing
fit), or it returns a batch of the first k entries (k ≥ 1), leaves the
suffix from position k, increments the id, and its max_tokens is the
accumulated cost of the first charged entries, where charged = k + 1
exactly when the loop stopped by rejecting entry k. -/
lemma next_batch_cases (entries : List Entry) (mbpt tb : ℤ) (B : ℕ) (w : Option ℤ) (i : ℕ) :
    (next_batch entries mbpt tb B w i = (none, entries, i) ∧
      (entries = [] ∨ (tb : ℚ) < 0 ∨
        (mbpt : ℚ) < prefill_sum B (entries.take 1) ∨
        (tb : ℚ) < prefill_sum B (entries.take 1) + decode_sum B w (entries.take 1))) ∨
    (∃ k charged,
      1 ≤ k ∧ k ≤ entries.length ∧ k ≤ charged ∧ charged ≤ k + 1 ∧ charged ≤ entries.length ∧
      next_batch entries mbpt tb B w i =
        (some { id := i, size := k,
                requests := (entries.take k).map (fun e => e.request),
                max_tokens := prefill_sum B (entries.take charged) +
                  decode_sum B w (entries.take charged) },
         entries.drop k, i + 1) ∧
      (∀ j, 1 ≤ j → j ≤ k →
        prefill_sum B (entries.take j) ≤ (mbpt : ℚ) ∧
        prefill_sum B (entries.take j) + decode_sum B w (entries.take j) ≤ (tb : ℚ)) ∧
      (charged = k + 1 →
        ((mbpt : ℚ) < prefill_sum B (entries.take charged) ∨
         (tb : ℚ) < prefill_sum B (entries.take charged) + decode_sum B w (entries.take charged))) ∧
      (charged = k → k = entries.length)) := by
  obtain ⟨k, charged, hkc, hck, hchlen, heq, hcom, hrc, hstop⟩ :=
    nextBatchGo_spec mbpt tb B w entries [] 0 0
  simp only [zero_add, List.nil_append] at heq hcom hrc hstop
  by_cases hk : k = 0
  · subst hk
    left
    constructor
    · simp only [next_batch, heq, List.take_zero, List.map_nil, List.isEmpty_nil,
        List.drop_zero, if_pos]
    · interval_cases charged
      · rcases hstop rfl with h1 | ⟨_, h2⟩
        · exact Or.inl (List.length_eq_zero.mp h1.symm)
        · simpa using Or.inr (Or.inl h2)
      · rcases hrc rfl with h1 | h1
        · exact Or.inr (Or.inr (Or.inl h1))
        · refine Or.inr (Or.inr (Or.inr (by linarith)))
  · right
    have hk1 : 1 ≤ k := by omega
    have hklen : k ≤ entries.length := by omega
    refine ⟨k, charged, hk1, hklen, hkc, hck, hchlen, ?_, ?_, hrc, ?_⟩
    · have hene : entries ≠ [] := by
        intro h
        subst h
        simp at hklen
        omega
      have htk : entries.take k ≠ [] := by
        rw [ne_eq, List.take_eq_nil_iff]
        push_neg
        exact ⟨hk, hene⟩
      have hmapne : (entries.take k).map (fun e => e.request) ≠ [] := by
        simp only [ne_eq, List.map_eq_nil_iff]
        exact htk
      obtain ⟨x, xs, hxx⟩ := List.exists_cons_of_ne_nil hmapne
      have hne : ((entries.take k).map (fun e => e.request)).isEmpty = false := by
        rw [hxx]
        rfl
      simp only [next_batch, heq, hne, Bool.false_eq_true, if_neg, not_false_iff]
      have hlen : ((entries.take k).map (fun e => e.request)).length = k := by
        simp [List.length_take, min_eq_left hklen]
      simp [hlen, hklen]
    · intro j hj1 hj2
      have h := hcom j hj1 hj2
      exact ⟨h.1, by linarith [h.2]⟩
    · intro hch
      rcases hstop hch with h1 | ⟨h1, _⟩
      · exact h1
      · exact absurd h1 hk

/-- create_entry (source lines 202-241): builds an Entry whose request has
max_new_tokens = max_total_tokens - input_length and the fixed neutral
sampling parameters of lines 215-227.  Note max_new_tokens is negative
whenever input_length > max_total_tokens; the source does not guard
against this. -/
def create_entry (inputs : String) (input_length : ℕ)
    (max_input_length max_total_tokens : ℤ) : Entry :=
  { request :=
      { id := 0, inputs := inputs, truncate := max_input_length,
        parameters := ⟨1, 0, 1, 1, false, 0, 1, false, "", none, 0⟩,
        stopping_parameters := ⟨max_total_tokens - (input_length : ℤ), [], false⟩,
        adapter_index := 0, prefill_logprobs := true, apply_chat_template := false },
    input_length := input_length }

/-- Concrete entry used in witnesses and counterexamples: request id i,
input length L, requested max_new_tokens M, neutral sampling parameters. -/
def sampleEntry (i : ℤ) (L : ℕ) (M : ℤ) : Entry :=
  { request :=
      { id := i, inputs := "x", truncate := 0,
        parameters := ⟨1, 0, 1, 1, false, 0, 1, false, "", none, 0⟩,
        stopping_parameters := ⟨M, [], false⟩,
        adapter_index := 0, prefill_logprobs := true, apply_chat_template := false },
    input_length := L }

/-- The batch produced by next_batch on [sampleEntry 1 1 1, sampleEntry 2 1 1]
with max_batch_prefill_tokens = 100 and token_budget = 40: only the first
entry is committed, but max_tokens also charges the rejected second entry
(16 + 16 committed plus 16 + 16 rejected = 64). -/
def sampleBatch1 : Batch :=
  { id := 0, size := 1, requests := [(sampleEntry 1 1 1).request], max_tokens := 64 }

/-- The batch produced by the second next_batch call of the C3 scenario:
the remaining entry admitted alone. -/
def sampleBatch2 : Batch :=
  { id := 1, size := 1, requests := [(sampleEntry 2 1 1).request], max_tokens := 32 }

/-- C10: every call to the Scheduler (next_batch) decomposes the queue
exactly: either it returns none and the queue (and id counter) is
unchanged, or it returns a Batch whose requests are precisely those of the
first k entries of the original queue in order, for some k ≥ 1, and the
remaining queue is exactly the original queue's suffix from position k. -/
theorem C10_exact_queue_decomposition (entries : List Entry) (mbpt tb : ℤ)
    (B : ℕ) (w : Option ℤ) (i : ℕ) :
    ((next_batch entries mbpt tb B w i).1 = none →
      next_batch entries mbpt tb B w i = (none, entries, i)) ∧
    (∀ b, (next_batch entries mbpt tb B w i).1 = some b →
      ∃ k, 1 ≤ k ∧ k ≤ entries.length ∧
        b.requests = (entries.take k).map (fun e => e.request) ∧
        (next_batch entries mbpt tb B w i).2.1 = entries.drop k) := by
  rcases next_batch_cases entries mbpt tb B w i with ⟨heq, _⟩ |
    ⟨k, ch, hk1, hklen, _, _, _, heq, _, _, _⟩
  · refine ⟨fun _ => heq, fun b hb => ?_⟩
    rw [heq] at hb
    simp at hb
  · constructor
    · intro h
      rw [heq] at h
      simp at h
    · intro b hb
      rw [heq] at hb
      simp only [Option.some.injEq] at hb
      refine ⟨k, hk1, hklen, ?_, ?_⟩
      · rw [← hb]
      · rw [heq]

/-- Witness for C10 at a concrete input: a two-entry queue where only the
first entry fits. -/
theorem C10_witness :
    ∃ k, 1 ≤ k ∧ k ≤ ([sampleEntry 1 1 1, sampleEntry 2 1 1] : List Entry).length ∧
      sampleBatch1.requests =
        (([sampleEntry 1 1 1, sampleEntry 2 1 1] : List Entry).take k).map
          (fun e => e.request) ∧
      (next_batch [sampleEntry 1 1 1, sampleEntry 2 1 1] 100 40 16 none 0).2.1 =
        ([sampleEntry 1 1 1, sampleEntry 2 1 1] : List Entry).drop k :=
  (C10_exact_queue_decomposition [sampleEntry 1 1 1, sampleEntry 2 1 1] 100 40 16 none 0).2
    sampleBatch1
    (by norm_num [next_batch, nextBatchGo, prefill_cost, decode_cost, effective_max_new,
      sampleEntry, sampleBatch1])

/-- C5: a Batch returned by the Scheduler has summed prefill cost over its
member entries at most max_batch_prefill_tokens. -/
theorem C5_prefill_within_budget (entries : List Entry) (mbpt tb : ℤ) (B : ℕ)
    (w : Option ℤ) (i : ℕ) (b : Batch)
    (hb : (next_batch entries mbpt tb B w i).1 = some b) :
    ∃ k, b.requests = (entries.take k).map (fun e => e.request) ∧
      prefill_sum B (entries.take k) ≤ (mbpt : ℚ) := by
  rcases next_batch_cases entries mbpt tb B w i with ⟨heq, _⟩ |
    ⟨k, ch, hk1, hklen, _, _, _, heq, hcom, _, _⟩
  · rw [heq] at hb
    simp at hb
  · rw [heq] at hb
    simp only [Option.some.injEq] at hb
    exact ⟨k, by rw [← hb], (hcom k hk1 le_rfl).1⟩

/-- Witness for C5 at a concrete input. -/
theorem C5_witness :
    ∃ k, sampleBatch1.requests =
      (([sampleEntry 1 1 1, sampleEntry 2 1 1] : List Entry).take k).map
        (fun e => e.request) ∧
      prefill_sum 16 (([sampleEntry 1 1 1, sampleEntry 2 1 1] : List Entry).take k) ≤
        ((100 : ℤ) : ℚ) :=
  C5_prefill_within_budget [sampleEntry 1 1 1, sampleEntry 2 1 1] 100 40 16 none 0
    sampleBatch1
    (by norm_num [next_batch, nextBatchGo, prefill_cost, decode_cost, effective_max_new,
      sampleEntry, sampleBatch1])

/-- C2 counterexample: with queue [sampleEntry 1 1 1, sampleEntry 2 1 1],
max_batch_prefill_tokens = 100 and token_budget = 40, the returned batch
commits only the first entry, whose rounded prefill + decode cost is
16 + 16 = 32, yet its max_tokens is 64: the costs of the second entry,
which was popped and pushed back, are included. -/
theorem C2_counterexample :
    (next_batch [sampleEntry 1 1 1, sampleEntry 2 1 1] 100 40 16 none 0).1 =
      some sampleBatch1 ∧
    sampleBatch1.requests = [(sampleEntry 1 1 1).request] ∧
    prefill_sum 16 [sampleEntry 1 1 1] + decode_sum 16 none [sampleEntry 1 1 1] = 32 ∧
    sampleBatch1.max_tokens = 64 ∧
    (64 : ℚ) ≠ 32 := by
  refine ⟨?_, rfl, ?_, rfl, by norm_num⟩
  · norm_num [next_batch, nextBatchGo, prefill_cost, decode_cost, effective_max_new,
      sampleEntry, sampleBatch1]
  · norm_num [prefill_sum, decode_sum, prefill_cost, decode_cost, effective_max_new,
      sampleEntry]

/-- C2 amended: the max_tokens of a returned Batch is the sum of the
rounded prefill and decode costs of the committed entries, except that
when the call stopped by rejecting an entry (the queue did not run out),
the rejected entry's rounded costs are also included. -/
theorem C2_amended_max_tokens (entries : List Entry) (mbpt tb : ℤ) (B : ℕ)
    (w : Option ℤ) (i : ℕ) (b : Batch)
    (hb : (next_batch entries mbpt tb B w i).1 = some b) :
    ∃ k, 1 ≤ k ∧ k ≤ entries.length ∧
      b.requests = (entries.take k).map (fun e => e.request) ∧
      ((k = entries.length ∧
        b.max_tokens = prefill_sum B (entries.take k) + decode_sum B w (entries.take k)) ∨
       (k < entries.length ∧
        b.max_tokens =
          prefill_sum B (entries.take (k + 1)) + decode_sum B w (entries.take (k + 1)))) := by
  rcases next_batch_cases entries mbpt tb B w i with ⟨heq, _⟩ |
    ⟨k, ch, hk1, hklen, hkc, hck, hchlen, heq, _, _, hstop⟩
  · rw [heq] at hb
    simp at hb
  · rw [heq] at hb
    simp only [Option.some.injEq] at hb
    subst hb
    refine ⟨k, hk1, hklen, rfl, ?_⟩
    rcases (by omega : ch = k ∨ ch = k + 1) with h | h
    · exact Or.inl ⟨hstop h, by rw [h]⟩
    · exact Or.inr ⟨by omega, by rw [← h]⟩

/-- Witness for the amended C2 at a concrete input where an entry was
rejected, showing its costs included in max_tokens. -/
theorem C2_amended_witness :
    ∃ k, 1 ≤ k ∧ k ≤ ([sampleEntry 1 1 1, sampleEntry 2 1 1] : List Entry).length ∧
      sampleBatch1.requests =
        (([sampleEntry 1 1 1, sampleEntry 2 1 1] : List Entry).take k).map
          (fun e => e.request) ∧
      ((k = ([sampleEntry 1 1 1, sampleEntry 2 1 1] : List Entry).length ∧
        sampleBatch1.max_tokens =
          prefill_sum 16 (([sampleEntry 1 1 1, sampleEntry 2 1 1] : List Entry).take k) +
          decode_sum 16 none (([sampleEntry 1 1 1, sampleEntry 2 1 1] : List Entry).take k)) ∨
       (k < ([sampleEntry 1 1 1, sampleEntry 2 1 1] : List Entry).length ∧
        sampleBatch1.max_tokens =
          prefill_sum 16
            (([sampleEntry 1 1 1, sampleEntry 2 1 1] : List Entry).take (k + 1)) +
          decode_sum 16 none
            (([sampleEntry 1 1 1, sampleEntry 2 1 1] : List Entry).take (k + 1)))) :=
  C2_amended_max_tokens [sampleEntry 1 1 1, sampleEntry 2 1 1] 100 40 16 none 0
    sampleBatch1
    (by norm_num [next_batch, nextBatchGo, prefill_cost, decode_cost, effective_max_new,
      sampleEntry, sampleBatch1])

/-- C7: when the Scheduler returns a batch but the queue is not exhausted,
the stop was a rejection: the rejected entry sits unmodified at the front
of the remaining queue, the remaining queue is exactly the original
suffix after the committed entries, and the rejection was because adding
the entry's costs would exceed max_batch_prefill_tokens or token_budget. -/
theorem C7_rejected_entry_requeued_front (entries : List Entry) (mbpt tb : ℤ)
    (B : ℕ) (w : Option ℤ) (i : ℕ) (b : Batch)
    (hb : (next_batch entries mbpt tb B w i).1 = some b)
    (hrem : (next_batch entries mbpt tb B w i).2.1 ≠ []) :
    ∃ k, 1 ≤ k ∧ k < entries.length ∧
      b.requests = (entries.take k).map (fun e => e.request) ∧
      (next_batch entries mbpt tb B w i).2.1 = entries.drop k ∧
      (next_batch entries mbpt tb B w i).2.1.head? = entries[k]? ∧
      ((mbpt : ℚ) < prefill_sum B (entries.take (k + 1)) ∨
       (tb : ℚ) < prefill_sum B (entries.take (k + 1)) +
         decode_sum B w (entries.take (k + 1))) := by
  rcases next_batch_cases entries mbpt tb B w i with ⟨heq, _⟩ |
    ⟨k, ch, hk1, hklen, hkc, hck, hchlen, heq, _, hrc, hstop⟩
  · rw [heq] at hb
    simp at hb
  · rw [heq] at hb
    simp only [Option.some.injEq] at hb
    subst hb
    have hrem' : entries.drop k ≠ [] := by
      rw [heq] at hrem
      exact hrem
    have hklt : k < entries.length := by
      by_contra hc
      push_neg at hc
      exact hrem' (List.drop_eq_nil_of_le hc)
    have hch : ch = k + 1 := by
      rcases (by omega : ch = k ∨ ch = k + 1) with h | h
      · exact absurd (hstop h) (by omega)
      · exact h
    refine ⟨k, hk1, hklt, rfl, by rw [heq], ?_, ?_⟩
    · rw [heq]
      exact List.head?_drop entries k
    · have := hrc hch
      rwa [hch] at this

/-- Witness for C7 at a concrete input with a rejected second entry. -/
theorem C7_witness :
    ∃ k, 1 ≤ k ∧ k < ([sampleEntry 1 1 1, sampleEntry 2 1 1] : List Entry).length ∧
      sampleBatch1.requests =
        (([sampleEntry 1 1 1, sampleEntry 2 1 1] : List Entry).take k).map
          (fun e => e.request) ∧
      (next_batch [sampleEntry 1 1 1, sampleEntry 2 1 1] 100 40 16 none 0).2.1 =
        ([sampleEntry 1 1 1, sampleEntry 2 1 1] : List Entry).drop k ∧
      (next_batch [sampleEntry 1 1 1, sampleEntry 2 1 1] 100 40 16 none 0).2.1.head? =
        ([sampleEntry 1 1 1, sampleEntry 2 1 1] : List Entry)[k]? ∧
      (((100 : ℤ) : ℚ) <
        prefill_sum 16 (([sampleEntry 1 1 1, sampleEntry 2 1 1] : List Entry).take (k + 1)) ∨
       ((40 : ℤ) : ℚ) <
        prefill_sum 16
          (([sampleEntry 1 1 1, sampleEntry 2 1 1] : List Entry).take (k + 1)) +
        decode_sum 16 none
          (([sampleEntry 1 1 1, sampleEntry 2 1 1] : List Entry).take (k + 1))) :=
  C7_rejected_entry_requeued_front [sampleEntry 1 1 1, sampleEntry 2 1 1] 100 40 16 none 0
    sampleBatch1
    (by norm_num [next_batch, nextBatchGo, prefill_cost, decode_cost, effective_max_new,
      sampleEntry, sampleBatch1])
    (by norm_num [next_batch, nextBatchGo, prefill_cost, decode_cost, effective_max_new,
      sampleEntry])

/-- Evaluation of the cost expression for a nonzero block size: with true
division, ((x + B - 1) / B) * B is just x + B - 1, not a rounding. -/
lemma cost_expr_eval (x : ℚ) (B : ℕ) (hB : B ≠ 0) :
    ((x + B - 1) / B) * B = x + B - 1 := by
  have : (B : ℚ) ≠ 0 := Nat.cast_ne_zero.mpr hB
  field_simp

/-- The prefill cost of any entry is nonnegative. -/
lemma prefill_cost_nonneg (B : ℕ) (e : Entry) : 0 ≤ prefill_cost B e := by
  unfold prefill_cost
  rcases Nat.eq_zero_or_pos B with h | h
  · simp [h]
  · rw [cost_expr_eval _ _ (by omega)]
    have h1 : (1 : ℚ) ≤ (B : ℚ) := by exact_mod_cast h
    have h2 : (0 : ℚ) ≤ (e.input_length : ℚ) := by positivity
    linarith

lemma prefill_sum_append (B : ℕ) (l1 l2 : List Entry) :
    prefill_sum B (l1 ++ l2) = prefill_sum B l1 + prefill_sum B l2 := by
  simp [prefill_sum]

lemma decode_sum_append (B : ℕ) (w : Option ℤ) (l1 l2 : List Entry) :
    decode_sum B w (l1 ++ l2) = decode_sum B w l1 + decode_sum B w l2 := by
  simp [decode_sum]

lemma prefill_sum_nonneg (B : ℕ) (l : List Entry) : 0 ≤ prefill_sum B l := by
  refine List.sum_nonneg ?_
  intro x hx
  obtain ⟨e, _, rfl⟩ := List.mem_map.mp hx
  exact prefill_cost_nonneg B e

lemma decode_sum_nonneg (B : ℕ) (w : Option ℤ) (l : List Entry)
    (h : ∀ e ∈ l, 0 ≤ decode_cost B w e) : 0 ≤ decode_sum B w l := by
  refine List.sum_nonneg ?_
  intro x hx
  obtain ⟨e, he, rfl⟩ := List.mem_map.mp hx
  exact h e he

/-- Prefill-cost sums over a front segment never exceed the whole sum. -/
lemma prefill_sum_take_le (B : ℕ) (l : List Entry) (n : ℕ) :
    prefill_sum B (l.take n) ≤ prefill_sum B l := by
  conv_rhs => rw [← List.take_append_drop n l]
  rw [prefill_sum_append]
  have := prefill_sum_nonneg B (l.drop n)
  linarith

/-- Decode-cost sums over a front segment never exceed the whole sum when
every entry's decode cost is nonnegative. -/
lemma decode_sum_take_le (B : ℕ) (w : Option ℤ) (l : List Entry) (n : ℕ)
    (h : ∀ e ∈ l, 0 ≤ decode_cost B w e) :
    decode_sum B w (l.take n) ≤ decode_sum B w l := by
  conv_rhs => rw [← List.take_append_drop n l]
  rw [decode_sum_append]
  have : 0 ≤ decode_sum B w (l.drop n) :=
    decode_sum_nonneg B w _ (fun e he => h e (List.drop_subset n l he))
  linarith

/-- C8: for a scheduled entry, the decode part of the accumulated cost is
computed from min(window_size - input_length, max_new_tokens) when
window_size is set, and from max_new_tokens when it is unset; in
particular when max_new_tokens > W - L the min is W - L.  Stated through
next_batch on a queue holding the entry. -/
theorem C8_window_clamps_decode (e : Entry) (W mbpt tb : ℤ) (B : ℕ) (i : ℕ) :
    (∀ b, (next_batch [e] mbpt tb B (some W) i).1 = some b →
      b.max_tokens = prefill_cost B e +
        (((min (W - (e.input_length : ℤ))
            e.request.stopping_parameters.max_new_tokens : ℤ) + B - 1 : ℚ) / B) * B) ∧
    (W - (e.input_length : ℤ) < e.request.stopping_parameters.max_new_tokens →
      (min (W - (e.input_length : ℤ))
          e.request.stopping_parameters.max_new_tokens : ℤ) =
        W - (e.input_length : ℤ)) ∧
    (∀ b, (next_batch [e] mbpt tb B none i).1 = some b →
      b.max_tokens = prefill_cost B e +
        ((e.request.stopping_parameters.max_new_tokens + B - 1 : ℚ) / B) * B) := by
  refine ⟨?_, fun h => min_eq_left (le_of_lt h), ?_⟩
  · intro b hb
    rcases next_batch_cases [e] mbpt tb B (some W) i with ⟨heq, _⟩ |
      ⟨k, ch, hk1, hklen, hkc, hck, hchlen, heq, _, _, _⟩
    · rw [heq] at hb
      simp at hb
    · simp only [List.length_singleton] at hklen hchlen
      have hk : k = 1 := by omega
      have hch : ch = 1 := by omega
      subst hk
      subst hch
      rw [heq] at hb
      simp only [Option.some.injEq] at hb
      subst hb
      simp [prefill_sum, decode_sum, decode_cost, effective_max_new]
  · intro b hb
    rcases next_batch_cases [e] mbpt tb B none i with ⟨heq, _⟩ |
      ⟨k, ch, hk1, hklen, hkc, hck, hchlen, heq, _, _, _⟩
    · rw [heq] at hb
      simp at hb
    · simp only [List.length_singleton] at hklen hchlen
      have hk : k = 1 := by omega
      have hch : ch = 1 := by omega
      subst hk
      subst hch
      rw [heq] at hb
      simp only [Option.some.injEq] at hb
      subst hb
      simp [prefill_sum, decode_sum, decode_cost, effective_max_new]

/-- Witness for C8 at a concrete input: L = 1, M = 100, W = 16, so the
decode part is computed from W - L = 15 and max_tokens = 16 + 30 = 46. -/
theorem C8_witness :
    ({ id := 0, size := 1, requests := [(sampleEntry 1 1 100).request],
       max_tokens := 46 } : Batch).max_tokens =
      prefill_cost 16 (sampleEntry 1 1 100) +
        (((min ((16 : ℤ) - ((sampleEntry 1 1 100).input_length : ℤ))
            (sampleEntry 1 1 100).request.stopping_parameters.max_new_tokens : ℤ) +
            (16 : ℕ) - 1 : ℚ) / (16 : ℕ)) * (16 : ℕ) :=
  (C8_window_clamps_decode (sampleEntry 1 1 100) 16 1000 1000 16 0).1
    { id := 0, size := 1, requests := [(sampleEntry 1 1 100).request], max_tokens := 46 }
    (by norm_num [next_batch, nextBatchGo, prefill_cost, decode_cost, effective_max_new,
      sampleEntry])

/-- C1: the costs the code adds are not the spec's ceiling-rounded costs.
For an entry with input_length = 2 and max_new_tokens = 1 at block_size =
16, the code's Batch carries max_tokens = 17 + 16 = 33 (true division:
(2 + 15) / 16 * 16 = 17), while the spec's formula
ceil(input_length / block_size) * block_size + ceil(max_new / block_size)
* block_size gives 16 + 16 = 32. -/
theorem C1_cost_is_not_ceiling_rounded :
    (next_batch [sampleEntry 1 2 1] 1000 1000 16 none 0).1 =
      some { id := 0, size := 1, requests := [(sampleEntry 1 2 1).request],
             max_tokens := 33 } ∧
    ((spec_rounded_cost 2 16 : ℤ) : ℚ) + ((spec_rounded_cost 1 16 : ℤ) : ℚ) = 32 ∧
    (33 : ℚ) ≠ 32 := by
  refine ⟨?_, ?_, by norm_num⟩
  · norm_num [next_batch, nextBatchGo, prefill_cost, decode_cost, effective_max_new,
      sampleEntry]
  · have h2 : spec_rounded_cost 2 16 = 16 := by
      unfold spec_rounded_cost
      have : ⌈((2 : ℤ) : ℚ) / ((16 : ℕ) : ℚ)⌉ = 1 := by
        rw [Int.ceil_eq_iff]
        norm_num
      rw [this]
      norm_num
    have h1 : spec_rounded_cost 1 16 = 16 := by
      unfold spec_rounded_cost
      have : ⌈((1 : ℤ) : ℚ) / ((16 : ℕ) : ℚ)⌉ = 1 := by
        rw [Int.ceil_eq_iff]
        norm_num
      rw [this]
      norm_num
    rw [h1, h2]
    norm_num

/-- C6 counterexample: a two-entry queue whose total cost (16 + 32 + 16 -
48 = 16) is within token_budget = 40 and whose summed prefill cost (32) is
within max_batch_prefill_tokens = 100, yet next_batch admits nothing: the
first entry alone costs 48 > 40, is rejected, and the queue is returned
unchanged.  (The second entry's decode cost is negative because its
requested max_new_tokens is -63, as create_entry produces when
input_length exceeds max_total_tokens.) -/
theorem C6_counterexample :
    ([sampleEntry 1 1 17, sampleEntry 2 1 (-63)] : List Entry) ≠ [] ∧
    prefill_sum 16 [sampleEntry 1 1 17, sampleEntry 2 1 (-63)] ≤ ((100 : ℤ) : ℚ) ∧
    prefill_sum 16 [sampleEntry 1 1 17, sampleEntry 2 1 (-63)] +
      decode_sum 16 none [sampleEntry 1 1 17, sampleEntry 2 1 (-63)] ≤ ((40 : ℤ) : ℚ) ∧
    next_batch [sampleEntry 1 1 17, sampleEntry 2 1 (-63)] 100 40 16 none 0 =
      (none, [sampleEntry 1 1 17, sampleEntry 2 1 (-63)], 0) := by
  refine ⟨by simp, ?_, ?_, ?_⟩
  · norm_num [prefill_sum, decode_sum, prefill_cost, decode_cost, effective_max_new,
      sampleEntry]
  · norm_num [prefill_sum, decode_sum, prefill_cost, decode_cost, effective_max_new,
      sampleEntry]
  · norm_num [next_batch, nextBatchGo, prefill_cost, decode_cost, effective_max_new,
      sampleEntry]

/-- C6 amended: for a non-empty queue in which every entry's decode cost
is nonnegative, whose total rounded cost is at most token_budget and whose
summed prefill cost is at most max_batch_prefill_tokens, a single
next_batch call admits all entries into one batch and leaves the queue
empty. -/
theorem C6_admits_all (entries : List Entry) (mbpt tb : ℤ) (B : ℕ)
    (w : Option ℤ) (i : ℕ)
    (hne : entries ≠ [])
    (hdec : ∀ e ∈ entries, 0 ≤ decode_cost B w e)
    (hpc : prefill_sum B entries ≤ (mbpt : ℚ))
    (htot : prefill_sum B entries + decode_sum B w entries ≤ (tb : ℚ)) :
    next_batch entries mbpt tb B w i =
      (some { id := i, size := entries.length,
              requests := entries.map (fun e => e.request),
              max_tokens := prefill_sum B entries + decode_sum B w entries },
       [], i + 1) := by
  have hpn : 0 ≤ prefill_sum B entries := prefill_sum_nonneg B entries
  have hdn : 0 ≤ decode_sum B w entries := decode_sum_nonneg B w entries hdec
  rcases next_batch_cases entries mbpt tb B w i with ⟨heq, hwhy⟩ |
    ⟨k, ch, hk1, hklen, hkc, hck, hchlen, heq, hcom, hrc, hstop⟩
  · exfalso
    rcases hwhy with h | h | h | h
    · exact hne h
    · linarith
    · have := prefill_sum_take_le B entries 1
      linarith
    · have h1 := prefill_sum_take_le B entries 1
      have h2 := decode_sum_take_le B w entries 1 hdec
      linarith
  · rcases (by omega : ch = k ∨ ch = k + 1) with h | h
    · have hkl : k = entries.length := hstop h
      subst h
      subst hkl
      simpa [List.take_length, List.drop_length] using heq
    · exfalso
      have h1 := prefill_sum_take_le B entries ch
      have h2 := decode_sum_take_le B w entries ch hdec
      rcases hrc h with hh | hh <;> linarith

/-- Witness for the amended C6 at a concrete input: both entries fit and
both are admitted. -/
theorem C6_witness :
    next_batch [sampleEntry 1 1 1, sampleEntry 2 1 1] 100 100 16 none 0 =
      (some { id := 0, size := ([sampleEntry 1 1 1, sampleEntry 2 1 1] : List Entry).length,
              requests := ([sampleEntry 1 1 1, sampleEntry 2 1 1] : List Entry).map
                (fun e => e.request),
              max_tokens :=
                prefill_sum 16 [sampleEntry 1 1 1, sampleEntry 2 1 1] +
                decode_sum 16 none [sampleEntry 1 1 1, sampleEntry 2 1 1] },
       [], 0 + 1) :=
  C6_admits_all [sampleEntry 1 1 1, sampleEntry 2 1 1] 100 100 16 none 0
    (by simp)
    (by
      intro e he
      simp only [List.mem_cons, List.mem_singleton] at he
      rcases he with rfl | he
      · norm_num [decode_cost, effective_max_new, sampleEntry]
      · rcases he with rfl | h
        · norm_num [decode_cost, effective_max_new, sampleEntry]
        · simp at h)
    (by norm_num [prefill_sum, prefill_cost, sampleEntry])
    (by norm_num [prefill_sum, decode_sum, prefill_cost, decode_cost, effective_max_new,
      sampleEntry])

/-- One synthetic warmup request (source lines 129-155): dummy input of
max_input_length copies of "_test ", truncate = max_input_length, the
fixed sampling parameters of lines 134-146 (temperature 0.9, top_k 10,
top_p 0.9, typical_p 0.9, no sampling, seed 0, repetition penalty 1.2,
watermark on), and max_new_tokens = max_total_tokens - truncate_length
(line 148). -/
def warmupRequest (max_input_length : ℕ) (max_total_tokens truncate_length : ℤ) :
    Request :=
  { id := 0,
    inputs := String.join (List.replicate max_input_length "_test "),
    truncate := (max_input_length : ℤ),
    parameters := ⟨9/10, 10, 9/10, 9/10, false, 0, 12/10, true, "", none, 0⟩,
    stopping_parameters := ⟨max_total_tokens - truncate_length, [], false⟩,
    adapter_index := 0, prefill_logprobs := true, apply_chat_template := false }

/-- The warmup request-synthesis loop (source lines 123-156): starting
from n_tokens, while n_tokens < max_batch_prefill_tokens, append one
request with truncate_length = min(max_input_length,
max_batch_prefill_tokens - n_tokens) and advance n_tokens by
max_input_length.  The source loop diverges when max_input_length = 0,
hence the positivity argument; the CLI arguments are modelled as ℕ. -/
def warmupRequestsGo (max_input_length max_batch_prefill_tokens : ℕ)
    (max_total_tokens : ℤ) (hpos : 0 < max_input_length) (n_tokens : ℕ) :
    List Request :=
  if _h : n_tokens < max_batch_prefill_tokens then
    warmupRequest max_input_length max_total_tokens
        (min (max_input_length : ℤ)
          ((max_batch_prefill_tokens : ℤ) - (n_tokens : ℤ))) ::
      warmupRequestsGo max_input_length max_batch_prefill_tokens max_total_tokens hpos
        (n_tokens + max_input_length)
  else []
termination_by max_batch_prefill_tokens - n_tokens
decreasing_by omega

/-- The full list of synthetic requests built by warmup (source lines
123-156), starting from n_tokens = 0. -/
def warmup_requests (max_input_length max_batch_prefill_tokens : ℕ)
    (max_total_tokens : ℤ) (hpos : 0 < max_input_length) : List Request :=
  warmupRequestsGo max_input_length max_batch_prefill_tokens max_total_tokens hpos 0

/-- Closed form of the warmup synthesis loop: starting at n, it produces
(P - n + m - 1) / m requests, the j-th having truncate_length
min(m, P - (n + j*m)). -/
lemma warmupRequestsGo_eq (m P : ℕ) (T : ℤ) (hm : 0 < m) :
    ∀ fuel n, P - n ≤ fuel →
      warmupRequestsGo m P T hm n =
        (List.range ((P - n + m - 1) / m)).map
          (fun (j : ℕ) => warmupRequest m T
            (min (m : ℤ) ((P : ℤ) - ((n : ℤ) + (j : ℤ) * (m : ℤ))))) := by
  intro fuel
  induction fuel with
  | zero =>
    intro n hn
    rw [warmupRequestsGo]
    rw [dif_neg (by omega)]
    have h0 : P - n = 0 := by omega
    rw [h0]
    rw [Nat.div_eq_of_lt (by omega)]
    simp
  | succ fuel ih =>
    intro n hn
    by_cases hnP : n < P
    · rw [warmupRequestsGo]
      rw [dif_pos hnP]
      rw [ih (n + m) (by omega)]
      have hcount : (P - n + m - 1) / m = (P - (n + m) + m - 1) / m + 1 := by
        rcases le_or_lt (P - n) m with hle | hlt
        · have h1 : P - (n + m) = 0 := by omega
          have h2 : (0 + m - 1) / m = 0 := Nat.div_eq_of_lt (by omega)
          have h3 : (P - n + m - 1) / m = 1 := Nat.div_eq_of_lt_le (by omega) (by omega)
          rw [h1, h2, h3]
        · have h3 : P - n + m - 1 = (P - (n + m) + m - 1) + m := by omega
          rw [h3, Nat.add_div_right _ hm]
      rw [hcount]
      rw [List.range_succ_eq_map]
      rw [List.map_cons]
      congr 1
      · norm_num
      · rw [List.map_map]
        refine List.map_congr_left ?_
        intro j hj
        simp only [Function.comp_apply]
        congr 2
        push_cast
        ring
    · rw [warmupRequestsGo]
      rw [dif_neg hnP]
      have h0 : P - n = 0 := by omega
      rw [h0]
      rw [Nat.div_eq_of_lt (by omega)]
      simp

/-- Closed form of warmup_requests. -/
lemma warmup_requests_eq (m P : ℕ) (T : ℤ) (hm : 0 < m) :
    warmup_requests m P T hm =
      (List.range ((P + m - 1) / m)).map
        (fun (j : ℕ) => warmupRequest m T
          (min (m : ℤ) ((P : ℤ) - (j : ℤ) * (m : ℤ)))) := by
  unfold warmup_requests
  rw [warmupRequestsGo_eq m P T hm P 0 (by omega)]
  simp

/-- The integer ceiling of P / m equals the rounded-up natural division
(P + m - 1) / m. -/
lemma ceil_div_eq (P m : ℕ) (hm : 0 < m) :
    (((P + m - 1) / m : ℕ) : ℤ) = ⌈(P : ℚ) / (m : ℚ)⌉ := by
  set q : ℕ := (P + m - 1) / m with hq
  have e1 : m * q + (P + m - 1) % m = P + m - 1 := Nat.div_add_mod (P + m - 1) m
  have e2 : (P + m - 1) % m < m := Nat.mod_lt _ hm
  have hle : P ≤ m * q := by omega
  have hlt : m * q < P + m := by omega
  have hmq : (0 : ℚ) < (m : ℚ) := by exact_mod_cast hm
  have hle' : (P : ℚ) ≤ (m : ℚ) * (q : ℚ) := by exact_mod_cast hle
  have hlt' : (m : ℚ) * (q : ℚ) < (P : ℚ) + (m : ℚ) := by exact_mod_cast hlt
  have hqc : (((q : ℕ) : ℤ) : ℚ) = (q : ℚ) := by push_cast; ring
  rw [eq_comm, Int.ceil_eq_iff]
  rw [hqc]
  constructor
  · rw [lt_div_iff₀ hmq]
    have h4 : ((q : ℚ) - 1) * (m : ℚ) = (m : ℚ) * (q : ℚ) - (m : ℚ) := by ring
    rw [h4]
    linarith
  · rw [div_le_iff₀ hmq]
    have h4 : (q : ℚ) * (m : ℚ) = (m : ℚ) * (q : ℚ) := by ring
    rw [h4]
    linarith

/-- C9: for max_input_length = m ≥ 1 and max_batch_prefill_tokens = P ≥ 1,
warmup synthesizes exactly ceil(P / m) dummy requests, and the j-th
request has max_new_tokens = max_total_tokens - truncate_length where
truncate_length = min(m, P - j*m), the tokens-so-far at step j being
j*m. -/
theorem C9_warmup_synthesis (m P : ℕ) (T : ℤ) (hm : 0 < m) (_hP : 0 < P) :
    ((warmup_requests m P T hm).length : ℤ) = ⌈(P : ℚ) / (m : ℚ)⌉ ∧
    ∀ j (hj : j < (warmup_requests m P T hm).length),
      ((warmup_requests m P T hm).get ⟨j, hj⟩).stopping_parameters.max_new_tokens =
        T - min (m : ℤ) ((P : ℤ) - (j : ℤ) * (m : ℤ)) := by
  constructor
  · rw [warmup_requests_eq m P T hm]
    rw [List.length_map, List.length_range]
    exact ceil_div_eq P m hm
  · intro j hj
    rw [List.get_of_eq (warmup_requests_eq m P T hm)]
    simp [List.get_eq_getElem, List.getElem_map, List.getElem_range, warmupRequest]

/-- Witness for C9 at the spec's own scenario: max_batch_prefill_tokens =
64 and max_input_length = 16 yield ceil(64/16) = 4 requests. -/
theorem C9_witness :
    ((warmup_requests 16 64 100 (by norm_num)).length : ℤ) =
      ⌈((64 : ℕ) : ℚ) / ((16 : ℕ) : ℚ)⌉ ∧
    ⌈((64 : ℕ) : ℚ) / ((16 : ℕ) : ℚ)⌉ = 4 := by
  refine ⟨(C9_warmup_synthesis 16 64 100 (by norm_num) (by norm_num)).1, ?_⟩
  rw [Int.ceil_eq_iff]
  norm_num

/-- Modelled from the spec (§3, §6): a decode-step result
Generation{request_id, generated_text}; the source reads
generation.generated_text.text (line 114). -/
structure GeneratedText where
  text : String
deriving DecidableEq, Repr

/-- Modelled from the spec (§3, §6): one generation fragment. -/
structure Generation where
  request_id : ℤ
  generated_text : GeneratedText
deriving DecidableEq, Repr

/-- Modelled from the spec (§3): CachedBatch, the opaque engine-side
handle for a batch that has begun generating; only its identity matters
to the client. -/
structure CachedBatch where
  id : ℕ
deriving DecidableEq, Repr

/-- A Python value appended to the batches list of run: line 89 appends a
bare CachedBatch handle, while line 94 appends the entire
(CachedBatch, Generations) tuple returned by prefill without
destructuring it. -/
inductive BatchItem where
  | handle (cb : CachedBatch)
  | pair (cb : CachedBatch) (gens : List Generation)
deriving DecidableEq, Repr

/-- Outputs mapping (source line 83: outputs = defaultdict(list)),
request id ↦ list of fragments; absent keys read as []. -/
def Outputs : Type := ℤ → List String

/-- The initial, empty outputs mapping. -/
def emptyOutputs : Outputs := fun _ => []

/-- add_outputs (source lines 109-114): append each generation's text
fragment to the list at its request id. -/
def add_outputs (generations : List Generation) (outputs : Outputs) : Outputs :=
  generations.foldl
    (fun acc g rid =>
      if rid = g.request_id then acc rid ++ [g.generated_text.text] else acc rid)
    outputs

/-- A successful next_batch call strictly shortens the queue. -/
lemma next_batch_some_rem_length {entries : List Entry} {mbpt tb : ℤ} {B : ℕ}
    {w : Option ℤ} {i : ℕ} {b : Batch} {rem : List Entry} {nid : ℕ}
    (h : next_batch entries mbpt tb B w i = (some b, rem, nid)) :
    rem.length < entries.length := by
  rcases next_batch_cases entries mbpt tb B w i with ⟨heq, _⟩ |
    ⟨k, ch, hk1, hklen, _, _, _, heq, _, _, _⟩
  · rw [heq] at h
    simp at h
  · rw [heq] at h
    simp only [Prod.mk.injEq] at h
    obtain ⟨_, h2, _⟩ := h
    subst h2
    simp only [List.length_drop]
    omega

/-- A failing next_batch call leaves the queue and the id unchanged. -/
lemma next_batch_none_eq {entries : List Entry} {mbpt tb : ℤ} {B : ℕ}
    {w : Option ℤ} {i : ℕ} {rem : List Entry} {nid : ℕ}
    (h : next_batch entries mbpt tb B w i = (none, rem, nid)) :
    rem = entries ∧ nid = i := by
  rcases next_batch_cases entries mbpt tb B w i with ⟨heq, _⟩ |
    ⟨k, ch, hk1, hklen, _, _, _, heq, _, _, _⟩
  · rw [heq] at h
    simp only [Prod.mk.injEq] at h
    exact ⟨h.2.1.symm, h.2.2.symm⟩
  · rw [heq] at h
    simp at h

/-- The inner admission loop of run (source lines 92-95).  prefillFn is
the engine's Prefill call; generations is the variable bound at line 88
by the FIRST prefill of the round: the loop body neither rebinds it nor
destructures prefill's return value, so it appends the whole
(CachedBatch, Generations) pair to batches and merges the outer round's
generations again on every iteration. -/
def admissionLoop (prefillFn : Batch → CachedBatch × List Generation)
    (mbpt tb : ℤ) (B : ℕ) (w : Option ℤ) (generations : List Generation) :
    List Entry → ℕ → List BatchItem → Outputs →
      List Entry × ℕ × List BatchItem × Outputs
  | entries, next_id, batches, outputs =>
    match h : next_batch entries mbpt tb B w next_id with
    | (none, rem, nid) => (rem, nid, batches, outputs)
    | (some new_batch, rem, nid) =>
      let new_cached_batch := prefillFn new_batch
      admissionLoop prefillFn mbpt tb B w generations rem nid
        (batches ++ [BatchItem.pair new_cached_batch.1 new_cached_batch.2])
        (add_outputs generations outputs)
termination_by entries _ _ _ => entries.length
decreasing_by exact next_batch_some_rem_length h

/-- Non-dependent unfolding equation for admissionLoop. -/
lemma admissionLoop_eq (prefillFn : Batch → CachedBatch × List Generation)
    (mbpt tb : ℤ) (B : ℕ) (w : Option ℤ) (generations : List Generation)
    (entries : List Entry) (next_id : ℕ) (batches : List BatchItem)
    (outputs : Outputs) :
    admissionLoop prefillFn mbpt tb B w generations entries next_id batches outputs =
      match next_batch entries mbpt tb B w next_id with
      | (none, rem, nid) => (rem, nid, batches, outputs)
      | (some new_batch, rem, nid) =>
        admissionLoop prefillFn mbpt tb B w generations rem nid
          (batches ++ [BatchItem.pair (prefillFn new_batch).1 (prefillFn new_batch).2])
          (add_outputs generations outputs) := by
  conv_lhs => rw [admissionLoop]
  split
  · rename_i heq
    rw [heq]
  · rename_i heq
    rw [heq]

/-- The admission loop never lengthens the queue. -/
lemma admissionLoop_length_le (prefillFn : Batch → CachedBatch × List Generation)
    (mbpt tb : ℤ) (B : ℕ) (w : Option ℤ) (generations : List Generation) :
    ∀ (n : ℕ) (entries : List Entry), entries.length ≤ n →
      ∀ (next_id : ℕ) (batches : List BatchItem) (outputs : Outputs),
      (admissionLoop prefillFn mbpt tb B w generations entries next_id batches
        outputs).1.length ≤ entries.length := by
  intro n
  induction n with
  | zero =>
    intro entries hlen next_id batches outputs
    rw [admissionLoop_eq]
    split
    · rename_i rem nid hv
      obtain ⟨h1, _⟩ := next_batch_none_eq hv
      subst h1
      simp
    · rename_i nb rem nid hv
      have := next_batch_some_rem_length hv
      omega
  | succ n ih =>
    intro entries hlen next_id batches outputs
    rw [admissionLoop_eq]
    split
    · rename_i rem nid hv
      obtain ⟨h1, _⟩ := next_batch_none_eq hv
      subst h1
      simp
    · rename_i nb rem nid hv
      have hlt := next_batch_some_rem_length hv
      have hrec := ih rem (by omega) nid
        (batches ++ [BatchItem.pair (prefillFn nb).1 (prefillFn nb).2])
        (add_outputs generations outputs)
      omega

/-- The driver loop of run (source lines 85-101): while next_batch yields
a batch, prefill it, run the inner admission loop, perform a single
Decode call on the accumulated batches list, merge the decode
generations, and loop.  decodeFn is the engine's Decode call; its
returned CachedBatch (the engine's remaining active work) is dropped, as
in the source, where the reassigned cached_batch of line 98 is never
used again.  Returns the final (queue, id counter, outputs). -/
def runLoop (prefillFn : Batch → CachedBatch × List Generation)
    (decodeFn : List BatchItem → CachedBatch × List Generation)
    (mbpt tb : ℤ) (B : ℕ) (w : Option ℤ) :
    List Entry → ℕ → Outputs → List Entry × ℕ × Outputs
  | entries, next_id, outputs =>
    match h : next_batch entries mbpt tb B w next_id with
    | (none, rem, nid) => (rem, nid, outputs)
    | (some batch, rem, nid) =>
      let pr := prefillFn batch
      let al := admissionLoop prefillFn mbpt tb B w pr.2 rem nid
        [BatchItem.handle pr.1] (add_outputs pr.2 outputs)
      let dr := decodeFn al.2.2.1
      runLoop prefillFn decodeFn mbpt tb B w al.1 al.2.1
        (add_outputs dr.2 al.2.2.2)
termination_by entries _ _ => entries.length
decreasing_by
  exact lt_of_le_of_lt
    (admissionLoop_length_le prefillFn mbpt tb B w pr.2 rem.length rem le_rfl nid
      [BatchItem.handle pr.1] (add_outputs pr.2 outputs))
    (next_batch_some_rem_length h)

/-- Non-dependent unfolding equation for runLoop. -/
lemma runLoop_eq (prefillFn : Batch → CachedBatch × List Generation)
    (decodeFn : List BatchItem → CachedBatch × List Generation)
    (mbpt tb : ℤ) (B : ℕ) (w : Option ℤ) (entries : List Entry)
    (next_id : ℕ) (outputs : Outputs) :
    runLoop prefillFn decodeFn mbpt tb B w entries next_id outputs =
      match next_batch entries mbpt tb B w next_id with
      | (none, rem, nid) => (rem, nid, outputs)
      | (some batch, rem, nid) =>
        runLoop prefillFn decodeFn mbpt tb B w
          (admissionLoop prefillFn mbpt tb B w (prefillFn batch).2 rem nid
            [BatchItem.handle (prefillFn batch).1]
            (add_outputs (prefillFn batch).2 outputs)).1
          (admissionLoop prefillFn mbpt tb B w (prefillFn batch).2 rem nid
            [BatchItem.handle (prefillFn batch).1]
            (add_outputs (prefillFn batch).2 outputs)).2.1
          (add_outputs
            (decodeFn (admissionLoop prefillFn mbpt tb B w (prefillFn batch).2 rem nid
              [BatchItem.handle (prefillFn batch).1]
              (add_outputs (prefillFn batch).2 outputs)).2.2.1).2
            (admissionLoop prefillFn mbpt tb B w (prefillFn batch).2 rem nid
              [BatchItem.handle (prefillFn batch).1]
              (add_outputs (prefillFn batch).2 outputs)).2.2.2) := by
  conv_lhs => rw [runLoop]
  split
  · rename_i heq
    rw [heq]
  · rename_i heq
    rw [heq]

/-- Engine stub used to exercise the driver loop: Prefill returns a
handle carrying the batch id, and one generation per member request
tagged with the request id. -/
def testPrefill (b : Batch) : CachedBatch × List Generation :=
  (⟨b.id⟩, b.requests.map (fun r => ⟨r.id, ⟨"tok"⟩⟩))

/-- Engine stub: Decode reports a consolidated handle (signalling
remaining active work) and no new fragments. -/
def testDecode (_batches : List BatchItem) : CachedBatch × List Generation :=
  (⟨99⟩, [])

/-- C3: in the admission phase, the second and later Prefill results are
mishandled.  Concrete run: queue [entry 1, entry 2] with
max_batch_prefill_tokens = 16 and token_budget = 32 admits one entry per
call.  The first round (source lines 86-91) prefills batch 0 and merges
its generation (request id 1).  The inner loop (lines 92-95) then admits
batch 1 and calls Prefill, which returns handle ⟨1⟩ and a generation for
request id 2 — but the loop appends the whole (handle, generations) pair
to the batches list instead of the handle alone, and merges the FIRST
call's generations again: outputs for request 1 end as ["tok", "tok"]
and outputs for request 2 stay empty. -/
theorem C3_admission_loop_misroutes :
    next_batch [sampleEntry 1 1 1, sampleEntry 2 1 1] 16 32 16 none 0 =
      (some sampleBatch1, [sampleEntry 2 1 1], 1) ∧
    testPrefill sampleBatch1 = (⟨0⟩, [⟨1, ⟨"tok"⟩⟩]) ∧
    testPrefill sampleBatch2 = (⟨1⟩, [⟨2, ⟨"tok"⟩⟩]) ∧
    (admissionLoop testPrefill 16 32 16 none [⟨1, ⟨"tok"⟩⟩] [sampleEntry 2 1 1] 1
        [BatchItem.handle ⟨0⟩]
        (add_outputs [⟨1, ⟨"tok"⟩⟩] emptyOutputs)).2.2.1 =
      [BatchItem.handle ⟨0⟩, BatchItem.pair ⟨1⟩ [⟨2, ⟨"tok"⟩⟩]] ∧
    (admissionLoop testPrefill 16 32 16 none [⟨1, ⟨"tok"⟩⟩] [sampleEntry 2 1 1] 1
        [BatchItem.handle ⟨0⟩]
        (add_outputs [⟨1, ⟨"tok"⟩⟩] emptyOutputs)).2.2.2 1 = ["tok", "tok"] ∧
    (admissionLoop testPrefill 16 32 16 none [⟨1, ⟨"tok"⟩⟩] [sampleEntry 2 1 1] 1
        [BatchItem.handle ⟨0⟩]
        (add_outputs [⟨1, ⟨"tok"⟩⟩] emptyOutputs)).2.2.2 2 = [] := by
  refine ⟨?_, by norm_num [testPrefill, sampleEntry, sampleBatch1],
    by norm_num [testPrefill, sampleEntry, sampleBatch2], ?_, ?_, ?_⟩ <;>
    norm_num [admissionLoop_eq, next_batch, nextBatchGo, prefill_cost, decode_cost,
      effective_max_new, sampleEntry, sampleBatch1, sampleBatch2, testPrefill,
      add_outputs, emptyOutputs]

/-- C4: the driver loop terminates as soon as next_batch returns none,
even when the pending queue is non-empty.  Concrete run: a single entry
with input_length = 32 has prefill cost 47 > max_batch_prefill_tokens =
16, so next_batch returns none forever and runLoop exits immediately
with the entry still queued (and no Prefill or Decode ever issued). -/
theorem C4_loop_exits_with_nonempty_queue :
    runLoop testPrefill testDecode 16 1000 16 none [sampleEntry 1 32 1] 0 emptyOutputs =
      ([sampleEntry 1 32 1], 0, emptyOutputs) ∧
    ([sampleEntry 1 32 1] : List Entry) ≠ [] := by
  constructor
  · rw [runLoop_eq]
    have hnb : next_batch [sampleEntry 1 32 1] 16 1000 16 none 0 =
        (none, [sampleEntry 1 32 1], 0) := by
      norm_num [next_batch, nextBatchGo, prefill_cost, decode_cost, effective_max_new,
        sampleEntry]
    rw [hnb]
  · simp

end LoraxBatch

